import Mathlib

/-!
Verification of the Weaver semantic memory engine against its design
specification.

The definitions below are a shallow embedding of the memory subsystem of the
repository:

* `WorkingMemory` (src/agent_manager.py, class `WorkingMemory`): a bounded
  in-process key/value store with priority + LRU eviction.  The Python `dict`
  is modelled as an association list in insertion order; `datetime.now()`
  timestamps are passed explicitly as natural numbers (seconds).
* The long-term `VectorStore` and `MemorySystem.save_long_term`
  (src/agent_manager.py): records in table-scan order, with the validity
  filter, the subset/redundancy test, neighbor search with access-statistics
  updates, deletion and merge.  Embedding vectors are opaque provider output;
  the cosine similarity a query induces on stored records is therefore
  modelled as an explicit function argument `sim`, and the external text
  summarizer as an explicit function argument `smartMerge`.
* `SearchEngine.search` (src/memory/search.py) together with
  `EmbeddingManager.cosine_similarity` (src/memory/embedding.py): mixed
  vector + lexical ranking over real numbers, with `math.sqrt` as
  `Real.sqrt`.
* The time-decay composite score of `VectorStore.search`
  (src/memory_system.py, lines 260-288).
* `MemorySystem.process_short_term_to_long_term` (src/agent_manager.py):
  the session-transcript sweep with its try/finally clearing discipline.

Python floats are idealized as exact rationals where the code only compares
and adds them, and as real numbers where `sqrt`/`exp`/`log` occur.
-/

namespace Weaver

/-! ## Generic list helpers shared by the models -/

/-- Python's `min(xs, key=f)` on a non-empty list: the first element attaining
the minimal key (ties keep the earliest element, as CPython does). -/
def pyMinBy {α : Type} (f : α → Nat) : List α → Option α
  | [] => none
  | x :: xs => some (xs.foldl (fun best y => if f y < f best then y else best) x)

/-- Python's `min` over a list of integers (the minimal value). -/
def listMinInt : List Int → Option Int
  | [] => none
  | x :: xs => some (xs.foldl min x)

/-- Helper for `pySplitWs`: split a character list on whitespace runs,
accumulating the current (reversed) token. -/
def splitWsAux : List Char → List Char → List (List Char)
  | [], cur => if cur.isEmpty then [] else [cur.reverse]
  | c :: rest, cur =>
      if c.isWhitespace then
        if cur.isEmpty then splitWsAux rest [] else cur.reverse :: splitWsAux rest []
      else splitWsAux rest (c :: cur)

/-- Python's `str.split()` with no separator: split on whitespace runs and
drop empty pieces.  (Lean's `Char.isWhitespace` covers the whitespace
characters appearing in the repository's data.) -/
def pySplitWs (s : String) : List String :=
  (splitWsAux s.data []).map (fun cs => ⟨cs⟩)

/-- Python's `str.lower()` (the repository's data is ASCII plus CJK, on which
per-character ASCII lowercasing agrees with Python). -/
def lowerStr (s : String) : String := ⟨s.data.map Char.toLower⟩

/-- Python's `str.strip()`: drop leading and trailing whitespace. -/
def trimStr (s : String) : String :=
  ⟨((s.data.dropWhile Char.isWhitespace).reverse.dropWhile Char.isWhitespace).reverse⟩

/-- Python's `a.startswith(p)`. -/
def startsWithStr (s p : String) : Bool := p.data.isPrefixOf s.data

/-- Python's substring test `needle in hay` on strings. -/
def substrOf (needle hay : List Char) : Bool :=
  hay.tails.any (fun suf => needle.isPrefixOf suf)

/-- Python's `hay.count(needle)` for a non-empty needle: the number of
non-overlapping occurrences, scanning left to right.  Implemented as a fold
over all suffixes with a skip counter. -/
def countOccNonempty (needle hay : List Char) : Nat :=
  (hay.tails.foldl
    (fun acc suf =>
      match acc with
      | (cnt, Nat.succ skip) => (cnt, skip)
      | (cnt, 0) =>
          if needle.isPrefixOf suf then (cnt + 1, needle.length - 1) else (cnt, 0))
    (0, 0)).1

/-- Python's `hay.count(needle)` (for the empty needle Python returns
`len(hay) + 1`). -/
def countOcc (needle hay : List Char) : Nat :=
  match needle with
  | [] => hay.length + 1
  | _ :: _ => countOccNonempty needle hay

/-! ## WorkingMemory (src/agent_manager.py lines 87-222)

`WorkingMemoryItem` carries the same fields as the Python dataclass; `key` is
kept as the association-list key. -/

structure WMItem where
  value : String
  priority : Int
  createdAt : Nat
  lastAccess : Nat
  accessCount : Nat
  source : String
deriving DecidableEq, Repr

/-- The `self.items` dict: association list in insertion order, keys unique in
any state reachable from the empty store. -/
abbrev WMStore := List (String × WMItem)

/-- Model of `WorkingMemory._evict`, choice step: the minimum priority over all items,
then among the items at that priority the first one with the oldest
`last_access` (Python's `min(candidates, key=lambda x: x[1].last_access)`). -/
def evictChoice (st : WMStore) : Option (String × WMItem) :=
  match listMinInt (st.map (fun p => p.2.priority)) with
  | none => none
  | some m => pyMinBy (fun p => p.2.lastAccess) (st.filter (fun p => p.2.priority == m))

/-- Model of `WorkingMemory._evict`: remove the chosen key (no-op on an empty store). -/
def wmEvict (st : WMStore) : WMStore :=
  match evictChoice st with
  | none => st
  | some p => st.filter (fun q => q.1 != p.1)

/-- Model of `WorkingMemory.add`: update in place when the key exists (value replaced,
priority raised to the max, access metadata refreshed), otherwise evict when
at capacity and append a fresh item. -/
def wmAdd (cap : Nat) (st : WMStore) (key value : String) (priority : Int)
    (src : String) (now : Nat) : WMStore :=
  if st.any (fun p => p.1 == key) then
    st.map (fun p =>
      if p.1 == key then
        (p.1, { p.2 with
                  value := value
                  priority := max p.2.priority priority
                  lastAccess := now
                  accessCount := p.2.accessCount + 1 })
      else p)
  else
    let st1 := if cap ≤ st.length then wmEvict st else st
    st1 ++ [(key, ⟨value, priority, now, now, 0, src⟩)]

/-- Model of `WorkingMemory.get`: on a hit, refresh `last_access`, increment
`access_count` and return the stored value; on a miss return `None` and leave
the store untouched. -/
def wmGet (st : WMStore) (key : String) (now : Nat) : Option String × WMStore :=
  match st.find? (fun p => p.1 == key) with
  | some q =>
      (some q.2.value,
        st.map (fun p =>
          if p.1 == key then
            (p.1, { p.2 with lastAccess := now, accessCount := p.2.accessCount + 1 })
          else p))
  | none => (none, st)

/-- Model of `WorkingMemory.remove`. -/
def wmRemove (st : WMStore) (key : String) : Bool × WMStore :=
  if st.any (fun p => p.1 == key) then (true, st.filter (fun p => p.1 != key))
  else (false, st)

/-- Model of `WorkingMemory.clear`. -/
def wmClear : WMStore := []

/-- Model of `WorkingMemory.decay`: items whose age (in hours) since last access
exceeds the threshold lose one priority point, floored at 0.  The Python
condition `(now - last_access).total_seconds() / 3600 > threshold_hours`
(with an integer `threshold_hours`) is equivalent to the exact integer
comparison `now - last_access > 3600 * threshold_hours`. -/
def wmDecay (st : WMStore) (thresholdHours : Int) (now : Nat) : WMStore :=
  st.map (fun p =>
    if (now : Int) - (p.2.lastAccess : Int) > 3600 * thresholdHours then
      (p.1, { p.2 with priority := max 0 (p.2.priority - 1) })
    else p)

/-- One public operation on a `WorkingMemory` instance. -/
inductive WMOp where
  | add (key value : String) (priority : Int) (src : String) (now : Nat)
  | get (key : String) (now : Nat)
  | remove (key : String)
  | clear
  | decay (thresholdHours : Int) (now : Nat)

/-- State transition of one operation. -/
def wmStep (cap : Nat) (st : WMStore) : WMOp → WMStore
  | .add k v pr src now => wmAdd cap st k v pr src now
  | .get k now => (wmGet st k now).2
  | .remove k => (wmRemove st k).2
  | .clear => wmClear
  | .decay th now => wmDecay st th now

/-- Run a sequence of operations from the freshly constructed (empty) store. -/
def wmRun (cap : Nat) (ops : List WMOp) : WMStore :=
  ops.foldl (wmStep cap) []

/-! ## The long-term memory store (src/agent_manager.py, `VectorStore` and
`MemorySystem`)

Embedding vectors are opaque output of the external Embedding Provider; what
the save/merge pipeline consumes is only (a) whether the provider produced an
embedding for a text (`embedOk`), and (b) the cosine similarity the query
text induces on each stored record, modelled as a function
`sim : String → Option ℚ` on record contents (`none` models the
`norm_product == 0` rows that `VectorStore.search` skips).  The external Text
Summarizer of `_smart_merge` is likewise a function argument `smartMerge`. -/

/-- A row of the `long_term_memories` table, in table-scan order.  The
embedding BLOB is determined by the content (it is computed from it at insert
time), so it is not repeated here. -/
structure LTRecord where
  id : String
  content : String
  accessCount : Nat
  createdAt : Nat
  lastAccess : Nat
deriving DecidableEq, Repr

/-- A search result row `{"id": ..., "content": ..., "score": ...}`. -/
structure SearchHit where
  id : String
  content : String
  score : ℚ
deriving DecidableEq, Repr

/-- The MD5 hex digest, modelled abstractly: a digest is an opaque string
determined by the hashed input, assumed collision-free on the inputs under
consideration (distinct inputs yield distinct digests), so the identity
function serves as the model. -/
def md5Hex (s : String) : String := s

/-- Model of `UPDATE long_term_memories SET access_count = access_count + 1,
last_access = ? WHERE id = ?`, applied for each id of the returned top-k
search results. -/
def bumpAccess (ids : List String) (now : Nat) (store : List LTRecord) :
    List LTRecord :=
  store.map (fun r =>
    if ids.contains r.id then
      { r with accessCount := r.accessCount + 1, lastAccess := now }
    else r)

/-- Model of `VectorStore.search` (src/agent_manager.py lines 264-300): scan all rows,
skip rows with a zero norm product (`sim` = `none`), keep rows whose
similarity reaches `min_score`, sort by score descending (Python's stable
sort) and truncate to `top_k`; then increment the access statistics of the
returned rows.  Returns the result list together with the updated store. -/
def vsSearch (sim : String → Option ℚ) (store : List LTRecord) (topK : Nat)
    (minScore : ℚ) (now : Nat) : List SearchHit × List LTRecord :=
  let scored := store.filterMap (fun r =>
    match sim r.content with
    | none => none
    | some v => if minScore ≤ v then some ⟨r.id, r.content, v⟩ else none)
  let hits := (List.insertionSort (fun a b => b.score ≤ a.score) scored).take topK
  (hits, bumpAccess (hits.map (fun h => h.id)) now store)

/-- Model of `VectorStore.add`: `INSERT OR REPLACE` keyed on `id`, with
`access_count = 0` and fresh timestamps. -/
def vsAdd (store : List LTRecord) (id content : String) (now : Nat) :
    List LTRecord :=
  if store.any (fun r => r.id == id) then
    store.map (fun r => if r.id == id then ⟨id, content, 0, now, now⟩ else r)
  else
    store ++ [⟨id, content, 0, now, now⟩]

/-- Model of `VectorStore.delete`: `DELETE FROM long_term_memories WHERE id = ?`. -/
def vsDelete (store : List LTRecord) (id : String) : List LTRecord :=
  store.filter (fun r => r.id != id)

/-- The `INVALID_CONTENT_PATTERNS` blacklist of `MemorySystem`
(src/agent_manager.py lines 410-416). -/
def invalidContentPatterns : List String :=
  ["(无内容)", "无内容", "暂无内容", "没有内容",
   "无", "没有", "暂无", "未知", "空",
   "无可奉告", "未提供", "未提及", "无信息",
   "用户未", "没有提供", "未说明", "未告知",
   "null", "none", "empty", "n/a", "na"]

/-- The `analysis_prefixes` list of `MemorySystem._is_valid_content`. -/
def analysisPrefixes : List String :=
  ["这是", "属于", "符合", "不符合", "分析", "结论",
   "从对话中", "用户表示", "用户提供", "用户说"]

/-- The character class of the regex `[一-龥a-zA-Z]`. -/
def isCjkOrAsciiLetter (c : Char) : Bool :=
  (decide (0x4e00 ≤ c.toNat) && decide (c.toNat ≤ 0x9fa5)) || c.isAlpha

/-- Model of `MemorySystem._is_valid_content` (src/agent_manager.py lines 440-472):
reject empty text, blacklisted "no information" phrases (case-insensitive
exact match), analytical-register prefixes, text shorter than 3 characters,
and text without any CJK ideograph or ASCII letter. -/
def isValidContent (content : String) : Bool :=
  if content == "" then false
  else
    let stripped := trimStr content
    let lower := lowerStr stripped
    if invalidContentPatterns.any (fun pat => lower == lowerStr pat) then false
    else if analysisPrefixes.any (fun pre => startsWithStr stripped pre) then false
    else if stripped.length < 3 then false
    else stripped.data.any isCjkOrAsciiLetter

/-- Model of `MemorySystem._is_subset_or_redundant` (src/agent_manager.py lines
624-645): the new content is redundant when it is a literal substring of the
existing content (original case), or when every whitespace token of its
lowercasing occurs among the lowercased tokens of the existing content and
the existing content is more than 20% longer.  The Python float comparison
`len(existing) > len(new) * 1.2` is the exact comparison
`5 * len(existing) > 6 * len(new)` (1.2 = 6/5; both sides scaled by 5). -/
def isRedundant (newContent existingContent : String) : Bool :=
  let newLower := lowerStr newContent
  let existingLower := lowerStr existingContent
  if substrOf newContent.data existingContent.data then true
  else
    let newWords := pySplitWs newLower
    let existingWords := pySplitWs existingLower
    newWords.all (fun w => existingWords.contains w) &&
      decide (5 * existingContent.length > 6 * newContent.length)

/-- The redundancy test exactly as the claim words it: literal substring, or
case-sensitive token containment together with the existing text being *at
least* 20% longer (`≥`, i.e. `5 * len(b) ≥ 6 * len(a)`). -/
def isRedundantClaim (a b : String) : Bool :=
  substrOf a.data b.data ||
    ((pySplitWs a).all (fun w => (pySplitWs b).contains w) &&
      decide (5 * b.length ≥ 6 * a.length))

/-- Model of the merge-text computation of `save_long_term` (src/agent_manager.py
lines 681-702): `contents_to_merge` starts with the new content and keeps
every retrieved neighbor that is not itself subsumed by the new content; when
more than one text remains they are handed to `_smart_merge`, otherwise the
new content stands alone. -/
def mergedContent (smartMerge : String → List String → String)
    (content : String) (similar : List SearchHit) : String :=
  let contentsToMerge :=
    content :: (similar.filter (fun s => ¬ isRedundant s.content content)).map
      (fun s => s.content)
  if 1 < contentsToMerge.length then smartMerge content (contentsToMerge.drop 1)
  else content

/-- Model of `MemorySystem.save_long_term` (src/agent_manager.py lines 647-717):
validity filter, embedding computation (`embedOk content = false` models a
provider failure), neighbor search at the similarity threshold, the
redundancy early return, deletion of all retrieved neighbors, the
`_smart_merge` call, re-validation of the merged text, and the final
`INSERT OR REPLACE` under `md5(content)`. -/
def saveLongTerm (embedOk : String → Bool) (sim : String → String → Option ℚ)
    (smartMerge : String → List String → String) (threshold : ℚ) (now : Nat)
    (store : List LTRecord) (content0 : String) : Bool × List LTRecord :=
  let content := trimStr content0
  if ¬ isValidContent content then (false, store)
  else if ¬ embedOk content then (false, store)
  else
    let sres := vsSearch (sim content) store 5 threshold now
    let similar := sres.1
    let store1 := sres.2
    if similar.isEmpty then
      (true, vsAdd store1 (md5Hex content) content now)
    else if similar.any (fun s => isRedundant content s.content) then
      (true, store1)
    else
      let idsToDelete := similar.map (fun s => s.id)
      let store2 := idsToDelete.foldl vsDelete store1
      let merged := mergedContent smartMerge content similar
      if ¬ isValidContent merged then (false, store2)
      else (true, vsAdd store2 (md5Hex merged) merged now)

/-- The id derivation of `MemorySystem.save_long_term` in src/agent_manager.py
(line 709): `hashlib.md5(content.encode()).hexdigest()`. -/
def memoryIdAgent (content : String) : String := md5Hex content

/-- The id derivation of `MemorySystem.save_long_term_memory` in
src/memory_system.py (line 611) and of `MemorySystem.save_memory` in
src/memory/core.py (line 115):
`hashlib.md5(f"{content}{datetime.now()}".encode()).hexdigest()` — the
hashed input is the content with the current timestamp appended. -/
def memoryIdTimeSalted (content nowIso : String) : String :=
  md5Hex (content ++ nowIso)

/-! ## The hybrid search engine (src/memory/search.py and
src/memory/embedding.py)

Stored embedding vectors are lists of exact rationals (idealized floats);
the scores computed from them live in `ℝ` because of `math.sqrt`. -/

/-- A row of the chunk table as scanned by `SearchEngine.search`:
`(chunk_id, path, text, embedding_json)`. -/
structure Chunk where
  id : String
  path : String
  text : String
  embedding : List ℚ
deriving DecidableEq, Repr

/-- Model of `EmbeddingManager.cosine_similarity` (src/memory/embedding.py lines
43-52): dot product over the product of L2 norms, returning 0 when either
magnitude is zero (so no division by zero ever occurs). -/
noncomputable def cosineSimilarity (v w : List ℚ) : ℝ :=
  let dot : ℚ := ((v.zip w).map (fun p => p.1 * p.2)).sum
  let mag1 : ℝ := Real.sqrt (((v.map (fun a => a * a)).sum : ℚ) : ℝ)
  let mag2 : ℝ := Real.sqrt (((w.map (fun b => b * b)).sum : ℚ) : ℝ)
  if mag1 = 0 ∨ mag2 = 0 then 0 else (dot : ℝ) / (mag1 * mag2)

/-- Model of `SearchEngine._bm25_score` (src/memory/search.py lines 15-26): for each
distinct whitespace token of the lowercased query that occurs as a substring
of the lowercased text, accumulate `tf / (tf + 1.0)` where `tf` is the
number of (non-overlapping) occurrences.  Python iterates over a `set`;
addition is commutative, so deduplicated first-occurrence order yields the
same sum. -/
noncomputable def bm25Term (term textLower : String) : ℝ :=
  if substrOf term.data textLower.data then
    (countOcc term.data textLower.data : ℝ) /
      ((countOcc term.data textLower.data : ℝ) + 1)
  else 0

noncomputable def bm25Score (query text : String) : ℝ :=
  ((pySplitWs (lowerStr query)).dedup.map
    (fun term => bm25Term term (lowerStr text))).sum

/-- The fused relevance score of `SearchEngine.search` (line 66):
`0.7 * vector_score + 0.3 * min(bm25, 1.0)`. -/
noncomputable def hybridScore (qe : List ℚ) (query : String) (c : Chunk) : ℝ :=
  0.7 * cosineSimilarity qe c.embedding + 0.3 * min (bm25Score query c.text) 1

/-- Model of `SearchEngine.search` (src/memory/search.py lines 28-80): empty result on
a missing (or empty, hence falsy) query embedding and on an empty chunk
table; otherwise score every row, keep the rows reaching `min_score`, sort
by score descending and truncate to `top_k`. -/
noncomputable def searchEngineSearch (queryEmbedding : Option (List ℚ))
    (query : String) (rows : List Chunk) (topK : Nat) (minScore : ℝ) :
    List (Chunk × ℝ) :=
  match queryEmbedding with
  | none => []
  | some qe =>
    if qe = [] then []
    else if rows = [] then []
    else
      let scored := rows.filterMap (fun c =>
        if minScore ≤ hybridScore qe query c then some (c, hybridScore qe query c)
        else none)
      (List.insertionSort (fun a b => b.2 ≤ a.2) scored).take topK

/-! ## The time-decay composite score (src/memory_system.py,
`VectorStore.search`, lines 260-288) -/

/-- Model of `row['importance'] or 0.5`: Python's `or` replaces both a missing (NULL)
importance and a stored importance of exactly 0.0 by the 0.5 default. -/
noncomputable def effectiveImportance (importance : Option ℝ) : ℝ :=
  match importance with
  | none => 0.5
  | some v => if v = 0 then 0.5 else v

/-- The composite score computed when `time_decay` is enabled on the
long-term table (lines 263-277): similarity times the exponential half-life
decay `exp(-days_old * ln 2 / half_life_days)`, times the access boost
`1 + log1p(access_count) * 0.1`, times the importance factor
`0.5 + importance * 0.5`. -/
noncomputable def timeDecayScore (similarity : ℝ) (daysOld : Int)
    (halfLifeDays : ℝ) (accessCount : Nat) (importance : ℝ) : ℝ :=
  let decayFactor := Real.exp (-(daysOld : ℝ) * Real.log 2 / halfLifeDays)
  let accessFactor := 1 + Real.log (1 + (accessCount : ℝ)) * 0.1
  similarity * decayFactor * accessFactor * (0.5 + importance * 0.5)

/-- The composite score exactly as the specification words it. -/
noncomputable def specDecayScore (similarity : ℝ) (ageDays : Int)
    (halfLifeDays : ℝ) (accessCount : Nat) (importance : ℝ) : ℝ :=
  similarity * Real.exp (-(ageDays : ℝ) * Real.log 2 / halfLifeDays) *
    (1 + 0.1 * Real.log (1 + (accessCount : ℝ))) * (0.5 + 0.5 * importance)

/-! ## The session-transcript sweep
(src/agent_manager.py, `MemorySystem.process_short_term_to_long_term`,
lines 806-870)

The Markdown session log is modelled as the list of user-turn strings that
`_parse_session_log` extracts from it; `session_logger.clear()` is the empty
list.  The LLM-backed `_extract_important_facts` call is the external Text
Summarizer: an `Except`-valued function argument whose `error` result models
the call raising an exception.  The Python body runs under
`try/except/finally`: any exception is logged and swallowed, and the
`finally` block clears the session log unconditionally. -/

def processShortTerm (embedOk : String → Bool) (sim : String → String → Option ℚ)
    (smartMerge : String → List String → String)
    (extract : List String → Except Unit (List String)) (threshold : ℚ)
    (now : Nat) (sessionLog : List String) (store : List LTRecord) :
    Nat × List String × List LTRecord :=
  if sessionLog.isEmpty then (0, [], store)
  else
    match extract sessionLog with
    | .error _ => (0, [], store)
    | .ok facts =>
        let step := fun (acc : Nat × List LTRecord) (fact : String) =>
          let f := trimStr fact
          if ¬ isValidContent f then acc
          else if ¬ embedOk f then acc
          else
            let sres := vsSearch (sim f) acc.2 1 (mkRat 9 10) now
            if ¬ sres.1.isEmpty then (acc.1, sres.2)
            else
              let saved := saveLongTerm embedOk sim smartMerge threshold now sres.2 f
              (acc.1 + (if saved.1 then 1 else 0), saved.2)
        let res := facts.foldl step (0, store)
        (res.1, [], res.2)

/-! ## Concrete instances used by witnesses and counterexamples -/

/-- A concrete two-item store used by witnesses. -/
def wmDemoStore : WMStore :=
  [("a", ⟨"x", 1, 0, 0, 0, "s"⟩), ("b", ⟨"y", 1, 1, 1, 0, "s"⟩)]

/-- An embedding provider that always succeeds. -/
def embedAlwaysOk : String → Bool := fun _ => true

/-- An embedding provider that always fails. -/
def embedNeverOk : String → Bool := fun _ => false

/-- A similarity oracle rating every stored record 0.9 against any query. -/
def simConst09 : String → String → Option ℚ := fun _ _ => some (mkRat 9 10)

/-- A text summarizer returning a blacklisted "no information" phrase. -/
def mergeInvalidStub : String → List String → String := fun _ _ => "无"

/-- A text summarizer returning a fixed valid merged text. -/
def mergeValidStub : String → List String → String :=
  fun _ _ => "alpha beta gamma delta epsilon zeta"

/-- A one-record long-term store. -/
def demoStoreCoffee : List LTRecord := [⟨"m1", "user likes hot coffee", 0, 0, 0⟩]

/-- Another one-record long-term store. -/
def demoStoreAlpha : List LTRecord := [⟨"m1", "alpha beta gamma", 0, 0, 0⟩]

/-- A fact extractor whose call always raises. -/
def extractFailStub : List String → Except Unit (List String) := fun _ => .error ()

/-- A chunk whose stored embedding has zero norm. -/
def demoChunkZero : Chunk := ⟨"c1", "MEMORY.md", "foo", [0]⟩

/-! ## Lemmas about the fold-based minima -/

lemma foldlMin_mem {α : Type} (f : α → Nat) :
    ∀ (xs : List α) (x : α),
      xs.foldl (fun best y => if f y < f best then y else best) x ∈ x :: xs := by
  intro xs
  induction xs with
  | nil => intro x; simp
  | cons y ys ih =>
    intro x
    simp only [List.foldl]
    by_cases hyx : f y < f x
    · rw [if_pos hyx]
      exact List.mem_cons_of_mem _ (ih y)
    · rw [if_neg hyx]
      rcases List.mem_cons.mp (ih x) with h1 | h1
      · rw [h1]; exact List.mem_cons_self _ _
      · exact List.mem_cons_of_mem _ (List.mem_cons_of_mem _ h1)

lemma foldlMin_le {α : Type} (f : α → Nat) :
    ∀ (xs : List α) (x : α),
      f (xs.foldl (fun best y => if f y < f best then y else best) x) ≤ f x ∧
      ∀ y ∈ xs, f (xs.foldl (fun best y => if f y < f best then y else best) x) ≤ f y := by
  intro xs
  induction xs with
  | nil => intro x; simp
  | cons y ys ih =>
    intro x
    simp only [List.foldl]
    by_cases hyx : f y < f x
    · rw [if_pos hyx]
      obtain ⟨h1, h2⟩ := ih y
      refine ⟨le_trans h1 (le_of_lt hyx), ?_⟩
      intro z hz
      rcases List.mem_cons.mp hz with rfl | hz'
      · exact h1
      · exact h2 z hz'
    · rw [if_neg hyx]
      obtain ⟨h1, h2⟩ := ih x
      refine ⟨h1, ?_⟩
      intro z hz
      rcases List.mem_cons.mp hz with rfl | hz'
      · exact le_trans h1 (le_of_not_lt hyx)
      · exact h2 z hz'

lemma pyMinBy_spec {α : Type} (f : α → Nat) (x : α) (xs : List α) :
    ∃ a, pyMinBy f (x :: xs) = some a ∧ a ∈ x :: xs ∧ ∀ b ∈ x :: xs, f a ≤ f b := by
  refine ⟨_, rfl, foldlMin_mem f xs x, ?_⟩
  intro b hb
  obtain ⟨h1, h2⟩ := foldlMin_le f xs x
  rcases List.mem_cons.mp hb with rfl | hb'
  · exact h1
  · exact h2 b hb'

lemma foldlIntMin_mem : ∀ (xs : List Int) (x : Int), xs.foldl min x ∈ x :: xs := by
  intro xs
  induction xs with
  | nil => intro x; simp
  | cons y ys ih =>
    intro x
    simp only [List.foldl]
    have h := ih (min x y)
    rcases List.mem_cons.mp h with h1 | h1
    · rw [h1]
      rcases min_choice x y with h2 | h2 <;> rw [h2] <;> simp
    · simp [h1]

lemma foldlIntMin_le : ∀ (xs : List Int) (x : Int),
    xs.foldl min x ≤ x ∧ ∀ y ∈ xs, xs.foldl min x ≤ y := by
  intro xs
  induction xs with
  | nil => intro x; simp
  | cons y ys ih =>
    intro x
    simp only [List.foldl]
    obtain ⟨h1, h2⟩ := ih (min x y)
    refine ⟨le_trans h1 (min_le_left _ _), ?_⟩
    intro z hz
    rcases List.mem_cons.mp hz with rfl | hz'
    · exact le_trans h1 (min_le_right _ _)
    · exact h2 z hz'

lemma length_filter_lt_of_mem_not {α : Type} (pred : α → Bool) :
    ∀ (l : List α) (a : α), a ∈ l → pred a = false → (l.filter pred).length < l.length := by
  intro l
  induction l with
  | nil => intro a ha _; exact absurd ha (List.not_mem_nil a)
  | cons x xs ih =>
    intro a ha hpa
    rcases List.mem_cons.mp ha with rfl | ha'
    · rw [List.filter_cons, hpa]
      simp only [if_false, List.length_cons, Bool.false_eq_true, ite_false]
      exact Nat.lt_succ_of_le (List.length_filter_le _ _)
    · rw [List.filter_cons]
      by_cases hpx : pred x = true
      · simp only [hpx, if_true, List.length_cons, ite_true]
        exact Nat.succ_lt_succ (ih a ha' hpa)
      · simp only [hpx, if_false, List.length_cons, Bool.not_eq_true, ite_false]
        have hx : pred x = false := by
          cases h : pred x
          · rfl
          · exact absurd h hpx
        simp only [hx, Bool.false_eq_true, ite_false]
        exact Nat.lt_succ_of_le (Nat.le_of_lt (ih a ha' hpa))

/-! ## The eviction choice is a minimum of `(priority, lastAccess)` -/

lemma evictChoice_spec :
    ∀ st : WMStore, st ≠ [] →
      ∃ p, evictChoice st = some p ∧ p ∈ st ∧
        (∀ q ∈ st, p.2.priority ≤ q.2.priority) ∧
        (∀ q ∈ st, q.2.priority = p.2.priority → p.2.lastAccess ≤ q.2.lastAccess) ∧
        wmEvict st = st.filter (fun q => q.1 != p.1) := by
  intro st hne
  match st, hne with
  | s :: rest, _ =>
    have hmin : listMinInt ((s :: rest).map (fun p => p.2.priority)) =
        some ((rest.map (fun p => p.2.priority)).foldl min s.2.priority) := rfl
    set m := (rest.map (fun p => p.2.priority)).foldl min s.2.priority with hm
    have hle : ∀ q ∈ s :: rest, m ≤ q.2.priority := by
      intro q hq
      obtain ⟨h1, h2⟩ := foldlIntMin_le (rest.map fun p => p.2.priority) s.2.priority
      rcases List.mem_cons.mp hq with rfl | hq'
      · exact h1
      · exact h2 _ (List.mem_map_of_mem _ hq')
    have hmem : m ∈ (s :: rest).map (fun p => p.2.priority) := by
      have h := foldlIntMin_mem (rest.map fun p => p.2.priority) s.2.priority
      simpa using h
    obtain ⟨q0, hq0, hq0m⟩ := List.mem_map.mp hmem
    have hq0f : q0 ∈ (s :: rest).filter (fun p => p.2.priority == m) := by
      rw [List.mem_filter]
      exact ⟨hq0, by simp [hq0m]⟩
    cases hfil : (s :: rest).filter (fun p => p.2.priority == m) with
    | nil => rw [hfil] at hq0f; exact absurd hq0f (List.not_mem_nil q0)
    | cons c cs =>
      obtain ⟨p, hp_eq, hp_mem, hp_le⟩ := pyMinBy_spec (fun p => p.2.lastAccess) c cs
      have hchoice : evictChoice (s :: rest) = some p := by
        unfold evictChoice
        rw [hmin]
        show pyMinBy (fun p => p.2.lastAccess)
          (List.filter (fun p => p.2.priority == m) (s :: rest)) = some p
        rw [hfil]
        exact hp_eq
      have hp_filter : p ∈ (s :: rest).filter (fun p => p.2.priority == m) := by
        rw [hfil]; exact hp_mem
      have hp_in : p ∈ s :: rest := (List.mem_filter.mp hp_filter).1
      have hp_prio : p.2.priority = m := by
        have h := (List.mem_filter.mp hp_filter).2
        simpa using h
      refine ⟨p, hchoice, hp_in, ?_, ?_, ?_⟩
      · intro q hq; rw [hp_prio]; exact hle q hq
      · intro q hq hqp
        have hqf : q ∈ (s :: rest).filter (fun p => p.2.priority == m) := by
          rw [List.mem_filter]
          refine ⟨hq, by simp [hqp, hp_prio]⟩
        rw [hfil] at hqf
        exact hp_le q hqf
      · unfold wmEvict
        rw [hchoice]

lemma wmEvict_length_lt (st : WMStore) (hne : st ≠ []) :
    (wmEvict st).length < st.length := by
  obtain ⟨p, _, hmem, _, _, heq⟩ := evictChoice_spec st hne
  rw [heq]
  exact length_filter_lt_of_mem_not _ st p hmem (by simp)

/-! ## Capacity invariant -/

lemma wmStep_length_le (cap : Nat) (hcap : 1 ≤ cap) (st : WMStore)
    (hst : st.length ≤ cap) : ∀ op, (wmStep cap st op).length ≤ cap := by
  intro op
  cases op with
  | add k v pr src now =>
    show (wmAdd cap st k v pr src now).length ≤ cap
    unfold wmAdd
    by_cases hmem : st.any (fun p => p.1 == k) = true
    · rw [if_pos hmem]; simpa using hst
    · rw [if_neg hmem]
      by_cases hlen : cap ≤ st.length
      · have heq : st.length = cap := le_antisymm hst hlen
        have hne : st ≠ [] := by
          intro h
          rw [h] at heq
          simp at heq
          omega
        have hlt := wmEvict_length_lt st hne
        simp only [if_pos hlen, List.length_append, List.length_cons, List.length_nil]
        omega
      · simp only [if_neg hlen, List.length_append, List.length_cons, List.length_nil]
        omega
  | get k now =>
    show ((wmGet st k now).2).length ≤ cap
    unfold wmGet
    cases hf : st.find? (fun p => p.1 == k) with
    | none => simpa using hst
    | some q => simpa using hst
  | remove k =>
    show ((wmRemove st k).2).length ≤ cap
    unfold wmRemove
    by_cases hmem : st.any (fun p => p.1 == k) = true
    · rw [if_pos hmem]
      exact le_trans (List.length_filter_le _ _) hst
    · rw [if_neg hmem]; exact hst
  | clear => simp [wmStep, wmClear]
  | decay th now =>
    show (wmDecay st th now).length ≤ cap
    unfold wmDecay
    simpa using hst

lemma wmFoldl_length_le (cap : Nat) (hcap : 1 ≤ cap) :
    ∀ (ops : List WMOp) (st : WMStore), st.length ≤ cap →
      (ops.foldl (wmStep cap) st).length ≤ cap := by
  intro ops
  induction ops with
  | nil => intro st h; simpa using h
  | cons op ops ih =>
    intro st h
    exact ih _ (wmStep_length_le cap hcap st h op)

/-- C1 (amended): for every configured capacity `C ≥ 1`, after any sequence of
add/get/remove/clear/decay operations the number of stored items never
exceeds `C`; and an `add` of a new key when the store already holds `C` items
evicts an existing item (its key disappears) while keeping the store within
capacity.  (At capacity `C = 0` the code admits one item without evicting,
see the counterexample.) -/
theorem C1_capacity_invariant (cap : Nat) (hcap : 1 ≤ cap) :
    (∀ ops : List WMOp, (wmRun cap ops).length ≤ cap) ∧
    (∀ (st : WMStore) (key value : String) (pr : Int) (src : String) (now : Nat),
      st.length = cap → st.any (fun p => p.1 == key) = false →
      (wmAdd cap st key value pr src now).length ≤ cap ∧
      ∃ k, st.any (fun p => p.1 == k) = true ∧
        (wmAdd cap st key value pr src now).any (fun p => p.1 == k) = false) := by
  constructor
  · intro ops
    exact wmFoldl_length_le cap hcap ops [] (by simp)
  · intro st key value pr src now hlen hnew
    have hle : (wmAdd cap st key value pr src now).length ≤ cap :=
      wmStep_length_le cap hcap st (le_of_eq hlen) (.add key value pr src now)
    refine ⟨hle, ?_⟩
    have hne : st ≠ [] := by
      intro h
      rw [h] at hlen
      simp at hlen
      omega
    obtain ⟨p, _, hmem, _, _, heq⟩ := evictChoice_spec st hne
    refine ⟨p.1, ?_, ?_⟩
    · rw [List.any_eq_true]
      exact ⟨p, hmem, by simp⟩
    · have hcond : st.any (fun q => q.1 == key) ≠ true := by
        rw [hnew]; simp
      have hcap_le : cap ≤ st.length := le_of_eq hlen.symm
      unfold wmAdd
      rw [if_neg hcond, if_pos hcap_le, heq]
      rw [List.any_eq_false]
      intro q hq
      rcases List.mem_append.mp hq with hq1 | hq1
      · have := List.of_mem_filter hq1
        simpa using this
      · have hkey : q = (key, ⟨value, pr, now, now, 0, src⟩) := by simpa using hq1
        have hn : p.1 ≠ key := by
          intro hcontra
          have := (List.any_eq_false.mp hnew) p hmem
          simp [hcontra] at this
        simp [hkey]
        exact fun hcontra => hn hcontra.symm

/-- C1 counterexample: with configured capacity 0 a single `add` leaves one
stored item, exceeding the capacity, because `_evict` is a no-op on an empty
store and the new item is admitted unconditionally afterwards. -/
theorem C1_capacity_zero_counterexample :
    ¬ ((wmRun 0 [WMOp.add "a" "v" 0 "extracted" 0]).length ≤ 0) := by decide

/-- Witness for C1 at capacity 2 and a concrete operation sequence. -/
theorem C1_capacity_invariant_witness :
    1 ≤ 2 ∧ (wmRun 2 [WMOp.add "a" "v" 1 "s" 0, WMOp.add "b" "v" 0 "s" 1,
      WMOp.add "c" "v" 0 "s" 2]).length ≤ 2 :=
  ⟨by decide, (C1_capacity_invariant 2 (by decide)).1 _⟩

/-- C2: whenever eviction runs on a non-empty store, the chosen item has the
minimum priority over all stored items, and among the items tied at that
minimum priority its last-access timestamp is the oldest; concretely, with
capacity 2, after add("a", priority 1), add("b", priority 2),
add("c", priority 1) the store holds exactly "b" and "c" — item "a" was
evicted. -/
theorem C2_evict_min_priority_oldest :
    (∀ st : WMStore, st ≠ [] →
      ∃ p, evictChoice st = some p ∧ p ∈ st ∧
        (∀ q ∈ st, p.2.priority ≤ q.2.priority) ∧
        (∀ q ∈ st, q.2.priority = p.2.priority → p.2.lastAccess ≤ q.2.lastAccess) ∧
        wmEvict st = st.filter (fun q => q.1 != p.1)) ∧
    (wmRun 2 [WMOp.add "a" "va" 1 "s" 0, WMOp.add "b" "vb" 2 "s" 1,
      WMOp.add "c" "vc" 1 "s" 2]).map Prod.fst = ["b", "c"] :=
  ⟨evictChoice_spec, by decide⟩


/-- Witness for C2: on `wmDemoStore` (two items of equal priority, "a" older)
the eviction removes exactly key "a". -/
theorem C2_evict_min_priority_oldest_witness :
    wmEvict wmDemoStore = wmDemoStore.filter (fun q => q.1 != "a") := by
  obtain ⟨p, hc, _, _, _, he⟩ := C2_evict_min_priority_oldest.1 wmDemoStore (by decide)
  have hval : evictChoice wmDemoStore = some ("a", ⟨"x", 1, 0, 0, 0, "s"⟩) := by decide
  rw [hval] at hc
  have hp : p = ("a", ⟨"x", 1, 0, 0, 0, "s"⟩) := (Option.some.inj hc).symm
  rw [he, hp]

/-! ## C10: the side effects of `WorkingMemory.get` -/

lemma wmGet_bump_map (st : WMStore) (key : String) (now : Nat) :
    (st.map (fun p =>
        if p.1 == key then
          (p.1, { p.2 with lastAccess := now, accessCount := p.2.accessCount + 1 })
        else p)).map
      (fun p => (p.1, p.2.value, p.2.priority, p.2.createdAt, p.2.source)) =
    st.map (fun p => (p.1, p.2.value, p.2.priority, p.2.createdAt, p.2.source)) := by
  rw [List.map_map]
  apply List.map_congr_left
  intro p _
  by_cases h : p.1 = key
  · simp [h]
  · simp [h]

lemma wmGet_bump_filter (st : WMStore) (key : String) (now : Nat) :
    (st.map (fun p =>
        if p.1 == key then
          (p.1, { p.2 with lastAccess := now, accessCount := p.2.accessCount + 1 })
        else p)).filter (fun p => p.1 != key) =
    st.filter (fun p => p.1 != key) := by
  induction st with
  | nil => rfl
  | cons x xs ih =>
    by_cases h : (x.1 == key) = true
    · have h' : (x.1 != key) = false := by simp [bne, h]
      simp only [List.map_cons, List.filter_cons, if_pos h, h']
      simpa [h'] using ih
    · have hb : (x.1 == key) = false := by
        cases hx : x.1 == key
        · rfl
        · exact absurd hx h
      have h' : (x.1 != key) = true := by simp [bne, hb]
      simp only [List.map_cons, List.filter_cons, hb, h']
      simpa [h'] using congrArg (List.cons x) ih

/-- C10: `get` of a present key returns the stored value; its only state
change is refreshing that item's last-access timestamp and incrementing its
access count — every item's key, value, priority, creation time and source
are unchanged, items with other keys are untouched entirely — and `get` of an
absent key returns `none` and changes no state. -/
theorem C10_get_side_effects (st : WMStore) (key : String) (now : Nat) :
    ((wmGet st key now).2.map
        (fun p => (p.1, p.2.value, p.2.priority, p.2.createdAt, p.2.source)) =
      st.map (fun p => (p.1, p.2.value, p.2.priority, p.2.createdAt, p.2.source))) ∧
    ((wmGet st key now).2.filter (fun p => p.1 != key) =
      st.filter (fun p => p.1 != key)) ∧
    (∀ it : WMItem, st.find? (fun p => p.1 == key) = some (key, it) →
      wmGet st key now =
        (some it.value,
          st.map (fun p =>
            if p.1 == key then
              (p.1, { p.2 with lastAccess := now, accessCount := p.2.accessCount + 1 })
            else p))) ∧
    (st.find? (fun p => p.1 == key) = none → wmGet st key now = (none, st)) := by
  cases hf : st.find? (fun p => p.1 == key) with
  | none =>
    refine ⟨?_, ?_, ?_, ?_⟩
    · simp [wmGet, hf]
    · simp [wmGet, hf]
    · intro it hit; exact absurd hit (by simp)
    · intro _; simp [wmGet, hf]
  | some q =>
    refine ⟨?_, ?_, ?_, ?_⟩
    · simp only [wmGet, hf]
      exact wmGet_bump_map st key now
    · simp only [wmGet, hf]
      exact wmGet_bump_filter st key now
    · intro it hit
      have hq : q = (key, it) := Option.some.inj hit
      simp [wmGet, hf, hq]
    · intro hn; exact absurd hn (by simp)

/-- Witness for C10 on a concrete two-item store: getting "a" returns its
value and only bumps its access metadata. -/
theorem C10_get_side_effects_witness :
    wmGet wmDemoStore "a" 9 =
      (some "x", [("a", ⟨"x", 1, 0, 9, 1, "s"⟩), ("b", ⟨"y", 1, 1, 1, 0, "s"⟩)]) := by
  have h := (C10_get_side_effects wmDemoStore "a" 9).2.2.1 ⟨"x", 1, 0, 0, 0, "s"⟩ (by decide)
  rw [h]
  decide


/-! ## Frame lemmas for the long-term store operations -/

lemma bumpAccess_map_idContent (ids : List String) (now : Nat)
    (store : List LTRecord) :
    (bumpAccess ids now store).map (fun r => (r.id, r.content)) =
      store.map (fun r => (r.id, r.content)) := by
  unfold bumpAccess
  rw [List.map_map]
  apply List.map_congr_left
  intro r _
  by_cases h : r.id ∈ ids
  · simp [h]
  · simp [h]

lemma vsSearch_snd_map_idContent (sim : String → Option ℚ)
    (store : List LTRecord) (topK : Nat) (minScore : ℚ) (now : Nat) :
    ((vsSearch sim store topK minScore now).2).map (fun r => (r.id, r.content)) =
      store.map (fun r => (r.id, r.content)) := by
  unfold vsSearch
  exact bumpAccess_map_idContent _ now store

lemma vsSearch_snd_map_id (sim : String → Option ℚ) (store : List LTRecord)
    (topK : Nat) (minScore : ℚ) (now : Nat) :
    ((vsSearch sim store topK minScore now).2).map (fun r => r.id) =
      store.map (fun r => r.id) := by
  have h := congrArg (List.map Prod.fst)
    (vsSearch_snd_map_idContent sim store topK minScore now)
  simpa [List.map_map] using h

lemma vsDelete_ids_subset (st : List LTRecord) (id : String) :
    (vsDelete st id).map (fun r => r.id) ⊆ st.map (fun r => r.id) :=
  ((List.filter_sublist st).map (fun r => r.id)).subset

lemma foldl_vsDelete_ids_subset :
    ∀ (ids : List String) (st : List LTRecord),
      ((ids.foldl vsDelete st).map (fun r => r.id)) ⊆ st.map (fun r => r.id) := by
  intro ids
  induction ids with
  | nil => intro st; exact fun _ h => h
  | cons i is ih =>
    intro st
    exact fun a ha => vsDelete_ids_subset st i (ih (vsDelete st i) ha)

lemma vsAdd_mem_id (store : List LTRecord) (i c : String) (t : Nat) :
    (vsAdd store i c t).any (fun r => r.id == i) = true := by
  unfold vsAdd
  by_cases h : store.any (fun r => r.id == i) = true
  · rw [if_pos h]
    rw [List.any_eq_true] at h ⊢
    obtain ⟨r, hr, hri⟩ := h
    refine ⟨⟨i, c, 0, t, t⟩, ?_, by simp⟩
    rw [List.mem_map]
    exact ⟨r, hr, by rw [if_pos hri]⟩
  · rw [if_neg h]
    rw [List.any_eq_true]
    exact ⟨⟨i, c, 0, t, t⟩, by simp, by simp⟩

lemma vsAdd_replace_map_id (store : List LTRecord) (i c : String) (t : Nat)
    (h : store.any (fun r => r.id == i) = true) :
    (vsAdd store i c t).map (fun r => r.id) = store.map (fun r => r.id) := by
  unfold vsAdd
  rw [if_pos h, List.map_map]
  apply List.map_congr_left
  intro r _
  by_cases hr : r.id = i
  · simp [hr]
  · simp [hr]

lemma vsAdd_mem_pair (store : List LTRecord) (i c : String) (t : Nat) :
    (i, c) ∈ (vsAdd store i c t).map (fun r => (r.id, r.content)) := by
  unfold vsAdd
  by_cases h : store.any (fun r => r.id == i) = true
  · rw [if_pos h]
    rw [List.any_eq_true] at h
    obtain ⟨r, hr, hri⟩ := h
    apply List.mem_map.mpr
    refine ⟨⟨i, c, 0, t, t⟩, ?_, rfl⟩
    apply List.mem_map.mpr
    exact ⟨r, hr, by rw [if_pos hri]⟩
  · rw [if_neg h]
    rw [List.map_append]
    apply List.mem_append.mpr
    right
    simp

lemma vsDelete_all_ne (st : List LTRecord) (i : String) :
    (vsDelete st i).all (fun r => r.id != i) = true := by
  rw [List.all_eq_true]
  intro r hr
  have hr2 : r ∈ st.filter (fun r => r.id != i) := hr
  exact (List.mem_filter.mp hr2).2

lemma foldl_vsDelete_all_preserved (p : LTRecord → Bool) :
    ∀ (ids : List String) (st : List LTRecord), st.all p = true →
      ((ids.foldl vsDelete st).all p) = true := by
  intro ids
  induction ids with
  | nil => intro st h; exact h
  | cons j js ih =>
    intro st h
    apply ih
    rw [List.all_eq_true] at h ⊢
    intro r hr
    have hr2 : r ∈ st.filter (fun r => r.id != j) := hr
    exact h r (List.mem_of_mem_filter hr2)

lemma foldl_vsDelete_removes :
    ∀ (ids : List String) (st : List LTRecord) (i : String), i ∈ ids →
      ((ids.foldl vsDelete st).all (fun r => r.id != i)) = true := by
  intro ids
  induction ids with
  | nil => intro st i hi; exact absurd hi (List.not_mem_nil i)
  | cons j js ih =>
    intro st i hi
    rcases List.mem_cons.mp hi with rfl | hi'
    · exact foldl_vsDelete_all_preserved _ js (vsDelete st i) (vsDelete_all_ne st i)
    · exact ih (vsDelete st j) i hi'

lemma vsAdd_all_ne (store : List LTRecord) (i c : String) (t : Nat) (x : String)
    (hstore : store.all (fun r => r.id != x) = true) (hix : i ≠ x) :
    (vsAdd store i c t).all (fun r => r.id != x) = true := by
  unfold vsAdd
  rw [List.all_eq_true] at hstore
  by_cases h : store.any (fun r => r.id == i) = true
  · rw [if_pos h, List.all_eq_true]
    intro r hr
    obtain ⟨q, hq, hqr⟩ := List.mem_map.mp hr
    by_cases hqi : (q.id == i) = true
    · rw [if_pos hqi] at hqr
      rw [← hqr]
      simp [hix]
    · rw [if_neg hqi] at hqr
      rw [← hqr]
      exact hstore q hq
  · rw [if_neg h, List.all_eq_true]
    intro r hr
    rcases List.mem_append.mp hr with hr1 | hr1
    · exact hstore r hr1
    · have hre : r = ⟨i, c, 0, t, t⟩ := by simpa using hr1
      rw [hre]
      simp [hix]

lemma saveLongTerm_merge_branch (embedOk : String → Bool)
    (sim : String → String → Option ℚ) (smartMerge : String → List String → String)
    (threshold : ℚ) (now : Nat) (store : List LTRecord) (content : String)
    (hvalid : isValidContent (trimStr content) = true)
    (hembed : embedOk (trimStr content) = true)
    (hne : (vsSearch (sim (trimStr content)) store 5 threshold now).1.isEmpty = false)
    (hnored : (vsSearch (sim (trimStr content)) store 5 threshold now).1.any
      (fun s => isRedundant (trimStr content) s.content) = false)
    (hmerged : isValidContent (mergedContent smartMerge (trimStr content)
      (vsSearch (sim (trimStr content)) store 5 threshold now).1) = true) :
    saveLongTerm embedOk sim smartMerge threshold now store content =
      (true, vsAdd
        (((vsSearch (sim (trimStr content)) store 5 threshold now).1.map
            (fun s => s.id)).foldl vsDelete
          (vsSearch (sim (trimStr content)) store 5 threshold now).2)
        (md5Hex (mergedContent smartMerge (trimStr content)
          (vsSearch (sim (trimStr content)) store 5 threshold now).1))
        (mergedContent smartMerge (trimStr content)
          (vsSearch (sim (trimStr content)) store 5 threshold now).1) now) := by
  simp [saveLongTerm, hvalid, hembed, hne, hnored, hmerged]

/-- C3 (amended): in the src/agent_manager.py variant the id is
`md5(content)`, so saving the same content twice upserts the same id and the
set of record ids does not grow (identical content collapses to one record);
after a merge, the store holds a record whose id is md5 of the merged content
with the merged content itself, and every superseded neighbor id (other than
the new id) has been deleted; in the src/memory_system.py and
src/memory/core.py variants the hashed input additionally contains the save
timestamp, so two saves of the same content at different times derive
*different* ids. -/
theorem C3_id_determinism :
    (∀ (content : String) (t1 t2 : Nat) (store : List LTRecord),
      (vsAdd (vsAdd store (memoryIdAgent content) content t1)
          (memoryIdAgent content) content t2).map (fun r => r.id) =
        (vsAdd store (memoryIdAgent content) content t1).map (fun r => r.id)) ∧
    (∀ content t1 t2 : String, t1 ≠ t2 →
      memoryIdTimeSalted content t1 ≠ memoryIdTimeSalted content t2) ∧
    (∀ (embedOk : String → Bool) (sim : String → String → Option ℚ)
      (smartMerge : String → List String → String) (threshold : ℚ) (now : Nat)
      (store : List LTRecord) (content : String),
      isValidContent (trimStr content) = true →
      embedOk (trimStr content) = true →
      (vsSearch (sim (trimStr content)) store 5 threshold now).1.isEmpty = false →
      (vsSearch (sim (trimStr content)) store 5 threshold now).1.any
        (fun s => isRedundant (trimStr content) s.content) = false →
      isValidContent (mergedContent smartMerge (trimStr content)
        (vsSearch (sim (trimStr content)) store 5 threshold now).1) = true →
      ((md5Hex (mergedContent smartMerge (trimStr content)
            (vsSearch (sim (trimStr content)) store 5 threshold now).1),
          mergedContent smartMerge (trimStr content)
            (vsSearch (sim (trimStr content)) store 5 threshold now).1) ∈
        (saveLongTerm embedOk sim smartMerge threshold now store content).2.map
          (fun r => (r.id, r.content)) ∧
      ∀ s ∈ (vsSearch (sim (trimStr content)) store 5 threshold now).1,
        s.id ≠ md5Hex (mergedContent smartMerge (trimStr content)
          (vsSearch (sim (trimStr content)) store 5 threshold now).1) →
        ((saveLongTerm embedOk sim smartMerge threshold now store content).2.all
          (fun r => r.id != s.id)) = true)) := by
  refine ⟨?_, ?_, ?_⟩
  · intro content t1 t2 store
    exact vsAdd_replace_map_id _ _ _ _ (vsAdd_mem_id store _ content t1)
  · intro content t1 t2 hne heq
    apply hne
    have hd := congrArg String.data heq
    simp only [memoryIdTimeSalted, md5Hex, String.data_append] at hd
    exact String.ext (List.append_cancel_left hd)
  · intro embedOk sim smartMerge threshold now store content hvalid hembed hne hnored hmerged
    rw [saveLongTerm_merge_branch embedOk sim smartMerge threshold now store content
      hvalid hembed hne hnored hmerged]
    constructor
    · exact vsAdd_mem_pair _ _ _ _
    · intro s hs hneq
      apply vsAdd_all_ne
      · exact foldl_vsDelete_removes _ _ _ (List.mem_map_of_mem (fun s => s.id) hs)
      · exact fun hc => hneq hc.symm

/-- C3 counterexample: in the src/memory_system.py variant two saves of the
identical content at two different timestamps hash different inputs, hence
(collision-freeness) different ids — the id is not a function of the content
alone, and identical content does not collapse to a single record. -/
theorem C3_time_salted_id_counterexample :
    memoryIdTimeSalted "用户喜欢咖啡" "2024-01-01 00:00:00" ≠
      memoryIdTimeSalted "用户喜欢咖啡" "2024-01-01 00:00:01" := by decide

/-- Witness for C3: a concrete duplicate save, a concrete pair of timestamps,
and a concrete merging save in which the neighbor "m1" is superseded and the
final record carries md5 of the merged content. -/
theorem C3_id_determinism_witness :
    ((vsAdd (vsAdd [] (memoryIdAgent "用户是工程师") "用户是工程师" 1)
        (memoryIdAgent "用户是工程师") "用户是工程师" 2).map (fun r => r.id) =
      (vsAdd [] (memoryIdAgent "用户是工程师") "用户是工程师" 1).map (fun r => r.id)) ∧
    ("10:00" ≠ "10:01" ∧
      memoryIdTimeSalted "用户是工程师" "10:00" ≠ memoryIdTimeSalted "用户是工程师" "10:01") ∧
    ((md5Hex "alpha beta gamma delta epsilon zeta",
        "alpha beta gamma delta epsilon zeta") ∈
      (saveLongTerm embedAlwaysOk simConst09 mergeValidStub (mkRat 3 4) 7
        demoStoreAlpha "delta epsilon zeta").2.map (fun r => (r.id, r.content)) ∧
      ((saveLongTerm embedAlwaysOk simConst09 mergeValidStub (mkRat 3 4) 7
        demoStoreAlpha "delta epsilon zeta").2.all (fun r => r.id != "m1")) = true) := by
  refine ⟨C3_id_determinism.1 "用户是工程师" 1 2 [],
    ⟨by decide, C3_id_determinism.2.1 "用户是工程师" "10:00" "10:01" (by decide)⟩, ?_⟩
  have h := C3_id_determinism.2.2 embedAlwaysOk simConst09 mergeValidStub (mkRat 3 4) 7
    demoStoreAlpha "delta epsilon zeta" (by decide) (by decide) (by decide) (by decide)
    (by decide)
  have hm : mergedContent mergeValidStub (trimStr "delta epsilon zeta")
      (vsSearch (simConst09 (trimStr "delta epsilon zeta")) demoStoreAlpha 5
        (mkRat 3 4) 7).1 = "alpha beta gamma delta epsilon zeta" := by decide
  rw [hm] at h
  refine ⟨h.1, ?_⟩
  exact h.2 ⟨"m1", "alpha beta gamma", mkRat 9 10⟩ (by decide) (by decide)

/-! ## C6: the redundancy test and the redundant-save no-op -/

lemma isEmpty_false_of_any {l : List SearchHit} {p : SearchHit → Bool}
    (h : l.any p = true) : l.isEmpty = false := by
  cases l with
  | nil => simp at h
  | cons a t => rfl

/-- C6 (amended): `isRedundant(a, b)` holds exactly when `a` is a literal
substring of `b`, or every whitespace token of `a` is contained in `b`'s
token set *comparing tokens case-insensitively* and `b` is *strictly more*
than 20% longer than `a`; and a save whose (valid, embeddable) text is
redundant with respect to some retrieved neighbor returns success while
writing and deleting nothing — the ids and contents of the long-term store
are unchanged, although the retrieved neighbors' access statistics have been
updated by the neighbor search itself. -/
theorem C6_redundant_save_noop (embedOk : String → Bool)
    (sim : String → String → Option ℚ) (smartMerge : String → List String → String)
    (threshold : ℚ) (now : Nat) (store : List LTRecord) (content : String)
    (hvalid : isValidContent (trimStr content) = true)
    (hembed : embedOk (trimStr content) = true)
    (hred : (vsSearch (sim (trimStr content)) store 5 threshold now).1.any
      (fun s => isRedundant (trimStr content) s.content) = true) :
    saveLongTerm embedOk sim smartMerge threshold now store content =
      (true, (vsSearch (sim (trimStr content)) store 5 threshold now).2) ∧
    ((vsSearch (sim (trimStr content)) store 5 threshold now).2.map
        (fun r => (r.id, r.content)) = store.map (fun r => (r.id, r.content))) ∧
    (∀ a b : String, isRedundant a b =
      (substrOf a.data b.data ||
        ((pySplitWs (lowerStr a)).all (fun w => (pySplitWs (lowerStr b)).contains w) &&
          decide (5 * b.length > 6 * a.length)))) := by
  refine ⟨?_, vsSearch_snd_map_idContent _ _ _ _ _, ?_⟩
  · have hne := isEmpty_false_of_any hred
    simp [saveLongTerm, hvalid, hembed, hne, hred]
  · intro a b
    unfold isRedundant
    by_cases hsub : substrOf a.data b.data = true
    · simp [hsub]
    · simp [hsub]

/-- C6 counterexample: (i) at the exact 20% boundary the code's strict `>`
test disagrees with the claim's "at least 20% longer"; (ii) the code compares
tokens after lowercasing, the claim's literal token containment does not;
(iii) a redundant save does change the long-term store — the retrieved
neighbor's access statistics are updated, so the stored rows differ. -/
theorem C6_redundancy_counterexample :
    (isRedundantClaim "ab cd" "cd  ab" = true ∧ isRedundant "ab cd" "cd  ab" = false) ∧
    (isRedundantClaim "AB CD" "ab cd x" = false ∧ isRedundant "AB CD" "ab cd x" = true) ∧
    ((saveLongTerm embedAlwaysOk simConst09 mergeInvalidStub (mkRat 3 4) 7
        demoStoreCoffee "likes hot").1 = true ∧
      (saveLongTerm embedAlwaysOk simConst09 mergeInvalidStub (mkRat 3 4) 7
        demoStoreCoffee "likes hot").2 ≠ demoStoreCoffee) := by decide

/-- Witness for C6: a concrete redundant save returns success and leaves the
single stored record's id and content unchanged (only its access metadata
moves). -/
theorem C6_redundant_save_noop_witness :
    saveLongTerm embedAlwaysOk simConst09 mergeInvalidStub (mkRat 3 4) 7
      demoStoreCoffee "likes hot" = (true, [⟨"m1", "user likes hot coffee", 1, 0, 7⟩]) := by
  have h := C6_redundant_save_noop embedAlwaysOk simConst09 mergeInvalidStub
    (mkRat 3 4) 7 demoStoreCoffee "likes hot" (by decide) (by decide) (by decide)
  exact h.1.trans (by decide)

/-! ## C7: graceful degradation on embedding-provider failure -/

/-- C7: when the Embedding Provider fails for a query, `SearchEngine.search`
returns the empty list (no exception is modelled — the function is total);
when it fails during a long-term save, `save_long_term` returns failure and
the store is completely untouched. -/
theorem C7_embedding_failure :
    (∀ (query : String) (rows : List Chunk) (topK : Nat) (minScore : ℝ),
      searchEngineSearch none query rows topK minScore = []) ∧
    (∀ (sim : String → String → Option ℚ)
      (smartMerge : String → List String → String) (threshold : ℚ) (now : Nat)
      (store : List LTRecord) (content : String),
      embedNeverOk (trimStr content) = false →
      saveLongTerm embedNeverOk sim smartMerge threshold now store content =
        (false, store)) := by
  constructor
  · intro query rows topK minScore
    rfl
  · intro sim smartMerge threshold now store content hfail
    by_cases hvalid : isValidContent (trimStr content) = true
    · simp [saveLongTerm, hvalid, hfail]
    · simp [saveLongTerm, hvalid]

/-- Witness for C7 at concrete inputs. -/
theorem C7_embedding_failure_witness :
    searchEngineSearch none "foo" [demoChunkZero] 5 0 = [] ∧
    saveLongTerm embedNeverOk simConst09 mergeInvalidStub (mkRat 3 4) 7
      demoStoreCoffee "user likes tea" = (false, demoStoreCoffee) :=
  ⟨C7_embedding_failure.1 "foo" [demoChunkZero] 5 0,
    C7_embedding_failure.2 simConst09 mergeInvalidStub (mkRat 3 4) 7
      demoStoreCoffee "user likes tea" (by decide)⟩

/-! ## C8: aborting a merge whose result fails the validity filter -/

/-- C8 (amended): whenever `save_long_term` reports failure — in particular
when the merged text fails the validity re-check — no record has been
written: every id present afterwards was present before.  The store is
however *not* always left exactly as it was: the neighbors deleted in
preparation of the merge stay deleted (see the counterexample). -/
theorem C8_merge_abort_no_write (embedOk : String → Bool)
    (sim : String → String → Option ℚ) (smartMerge : String → List String → String)
    (threshold : ℚ) (now : Nat) (store : List LTRecord) (content : String)
    (hfail : (saveLongTerm embedOk sim smartMerge threshold now store content).1 = false) :
    ((saveLongTerm embedOk sim smartMerge threshold now store content).2.map
      (fun r => r.id)) ⊆ store.map (fun r => r.id) := by
  simp only [saveLongTerm] at hfail ⊢
  split_ifs at hfail ⊢
  · exact List.Subset.trans
      (foldl_vsDelete_ids_subset
        ((vsSearch (sim (trimStr content)) store 5 threshold now).1.map (fun s => s.id))
        (vsSearch (sim (trimStr content)) store 5 threshold now).2)
      (by rw [vsSearch_snd_map_id]; exact fun _ h => h)
  · exact fun x hx => hx
  · exact fun x hx => hx

/-- C8 counterexample: a concrete save in which the merged text fails the
validity re-check reports failure and writes nothing new, but the store is
*not* left as it was — the neighbor fed into the merge was already deleted,
so the claim's "left exactly as it was before the save call" is false. -/
theorem C8_merge_abort_counterexample :
    saveLongTerm embedAlwaysOk simConst09 mergeInvalidStub (mkRat 3 4) 7
      demoStoreAlpha "delta epsilon zeta" = (false, []) ∧ demoStoreAlpha ≠ [] := by decide

/-- Witness for C8: the no-new-record property applied to the concrete
aborted merge. -/
theorem C8_merge_abort_no_write_witness :
    ((saveLongTerm embedAlwaysOk simConst09 mergeInvalidStub (mkRat 3 4) 7
      demoStoreAlpha "delta epsilon zeta").2.map (fun r => r.id)) ⊆
      demoStoreAlpha.map (fun r => r.id) :=
  C8_merge_abort_no_write embedAlwaysOk simConst09 mergeInvalidStub (mkRat 3 4) 7
    demoStoreAlpha "delta epsilon zeta" (by decide)

/-! ## C9: the sweep clears the transcript regardless of extraction outcome -/

/-- C9: every sweep of the session transcript ends with the transcript
cleared — whatever the extraction returns — and a run in which the extraction
call throws ends with the transcript cleared, zero facts extracted and the
long-term store untouched, so the same turns are never reprocessed. -/
theorem C9_sweep_always_clears (embedOk : String → Bool)
    (sim : String → String → Option ℚ) (smartMerge : String → List String → String)
    (extract : List String → Except Unit (List String)) (threshold : ℚ)
    (now : Nat) (sessionLog : List String) (store : List LTRecord) :
    ((processShortTerm embedOk sim smartMerge extract threshold now
        sessionLog store).2.1 = []) ∧
    (extract sessionLog = Except.error () →
      processShortTerm embedOk sim smartMerge extract threshold now
        sessionLog store = (0, [], store)) := by
  constructor
  · unfold processShortTerm
    by_cases h : sessionLog.isEmpty = true
    · rw [if_pos h]
    · rw [if_neg h]
      cases hx : extract sessionLog with
      | error e => rfl
      | ok facts => rfl
  · intro herr
    unfold processShortTerm
    by_cases h : sessionLog.isEmpty = true
    · rw [if_pos h]
    · rw [if_neg h, herr]

/-- Witness for C9: a sweep of two turns whose extraction call throws ends
with a cleared transcript, zero extracted facts and an unchanged store. -/
theorem C9_sweep_always_clears_witness :
    extractFailStub ["hi there", "remember my name is Bob"] = Except.error () ∧
    processShortTerm embedAlwaysOk simConst09 mergeInvalidStub extractFailStub
      (mkRat 3 4) 7 ["hi there", "remember my name is Bob"] demoStoreCoffee =
      (0, [], demoStoreCoffee) :=
  ⟨rfl, (C9_sweep_always_clears embedAlwaysOk simConst09 mergeInvalidStub
    extractFailStub (mkRat 3 4) 7 ["hi there", "remember my name is Bob"]
    demoStoreCoffee).2 rfl⟩

/-! ## C5: the time-decay composite score -/

/-- C5: for a long-term record with a stored importance value (importance is
positive on every record the save path writes), the time-decay composite
score is exactly `similarity * exp(-ageDays * ln 2 / halfLifeDays) *
(1 + 0.1 * ln(1 + accessCount)) * (0.5 + 0.5 * importance)`, and for positive
similarity this score is strictly positive — decay alone never zeroes a
record out. -/
theorem C5_time_decay_score (similarity : ℝ) (daysOld : Int) (halfLifeDays : ℝ)
    (accessCount : Nat) (importance : ℝ)
    (hsim : 0 < similarity) (himp : 0 < importance) :
    timeDecayScore similarity daysOld halfLifeDays accessCount
        (effectiveImportance (some importance)) =
      specDecayScore similarity daysOld halfLifeDays accessCount importance ∧
    0 < timeDecayScore similarity daysOld halfLifeDays accessCount
        (effectiveImportance (some importance)) := by
  have heff : effectiveImportance (some importance) = importance := by
    show (if importance = 0 then (0.5:ℝ) else importance) = importance
    rw [if_neg (ne_of_gt himp)]
  have hlog : 0 ≤ Real.log (1 + (accessCount : ℝ)) := by
    apply Real.log_nonneg
    have h0 : (0:ℝ) ≤ (accessCount : ℝ) := Nat.cast_nonneg _
    linarith
  constructor
  · simp only [timeDecayScore, specDecayScore, heff]
    ring
  · simp only [timeDecayScore, heff]
    have h1 : 0 < similarity * Real.exp (-(daysOld : ℝ) * Real.log 2 / halfLifeDays) :=
      mul_pos hsim (Real.exp_pos _)
    have h2 : (0:ℝ) < 1 + Real.log (1 + (accessCount : ℝ)) * 0.1 := by nlinarith
    have h3 : (0:ℝ) < 0.5 + importance * 0.5 := by linarith
    exact mul_pos (mul_pos h1 h2) h3

/-- Witness for C5 at similarity 1, age 0 days, half-life 30 days, no
accesses and importance 1. -/
theorem C5_time_decay_score_witness :
    (0:ℝ) < 1 ∧
    (timeDecayScore 1 0 30 0 (effectiveImportance (some 1)) =
        specDecayScore 1 0 30 0 1 ∧
      0 < timeDecayScore 1 0 30 0 (effectiveImportance (some 1))) :=
  ⟨one_pos, C5_time_decay_score 1 0 30 0 1 one_pos one_pos⟩

/-! ## C4: the hybrid search contract -/

lemma cosineSimilarity_zero_norm (v w : List ℚ)
    (h : ((w.map (fun b => b * b)).sum : ℚ) = 0) : cosineSimilarity v w = 0 := by
  simp only [cosineSimilarity, h]
  rw [if_pos]
  right
  simp

lemma searchEngineSearch_eq (qe : List ℚ) (query : String) (rows : List Chunk)
    (topK : Nat) (minScore : ℝ) (hqe : qe ≠ []) :
    searchEngineSearch (some qe) query rows topK minScore =
      (List.insertionSort (fun a b => b.2 ≤ a.2) (rows.filterMap (fun c =>
        if minScore ≤ hybridScore qe query c then some (c, hybridScore qe query c)
        else none))).take topK := by
  by_cases hrows : rows = []
  · subst hrows
    simp [searchEngineSearch, hqe]
  · simp [searchEngineSearch, hqe, hrows]

/-- C4 (amended): for a present, non-empty query embedding, the search result
is sorted by score descending, has at most `topK` entries, every returned
entry is a scanned row whose score is the fused
`0.7 * cosine + 0.3 * min(lexical, 1)` value and reaches `minScore`, and when
the result is not truncated it contains every row reaching `minScore`.
Candidates whose embedding has zero norm are *not* skipped: their cosine
similarity is 0 (the guard avoids the division by zero), so they still enter
the fused scoring through the lexical component. -/
theorem C4_search_contract (qe : List ℚ) (query : String) (rows : List Chunk)
    (topK : Nat) (minScore : ℝ) (hqe : qe ≠ []) :
    ((searchEngineSearch (some qe) query rows topK minScore).map
      (fun p => p.2)).Sorted (· ≥ ·) ∧
    (searchEngineSearch (some qe) query rows topK minScore).length ≤ topK ∧
    (∀ p ∈ searchEngineSearch (some qe) query rows topK minScore,
      minScore ≤ p.2 ∧ p.1 ∈ rows ∧ p.2 = hybridScore qe query p.1) ∧
    ((searchEngineSearch (some qe) query rows topK minScore).length < topK →
      ∀ c ∈ rows, minScore ≤ hybridScore qe query c →
        c ∈ (searchEngineSearch (some qe) query rows topK minScore).map
          (fun p => p.1)) ∧
    (∀ w : List ℚ, ((w.map (fun b => b * b)).sum : ℚ) = 0 →
      cosineSimilarity qe w = 0) := by
  haveI hTot : IsTotal (Chunk × ℝ) (fun a b => b.2 ≤ a.2) :=
    ⟨fun a b => le_total b.2 a.2⟩
  haveI hTrans : IsTrans (Chunk × ℝ) (fun a b => b.2 ≤ a.2) :=
    ⟨fun a b c h1 h2 => le_trans h2 h1⟩
  rw [searchEngineSearch_eq qe query rows topK minScore hqe]
  set f : Chunk → Option (Chunk × ℝ) := fun c =>
    if minScore ≤ hybridScore qe query c then some (c, hybridScore qe query c)
    else none with hf
  set scored := rows.filterMap f with hscored
  set sorted := List.insertionSort (fun a b => b.2 ≤ a.2) scored with hsorted
  have hmem_scored : ∀ p ∈ scored,
      minScore ≤ p.2 ∧ p.1 ∈ rows ∧ p.2 = hybridScore qe query p.1 := by
    intro p hp
    obtain ⟨c, hc, hfc⟩ := List.mem_filterMap.mp hp
    have hfc2 : (if minScore ≤ hybridScore qe query c
        then some (c, hybridScore qe query c) else none) = some p := hfc
    by_cases hcond : minScore ≤ hybridScore qe query c
    · rw [if_pos hcond] at hfc2
      have hpe : (c, hybridScore qe query c) = p := Option.some.inj hfc2
      rw [← hpe]
      exact ⟨hcond, hc, rfl⟩
    · rw [if_neg hcond] at hfc2
      exact absurd hfc2 (by simp)
  refine ⟨?_, ?_, ?_, ?_, fun w hw => cosineSimilarity_zero_norm qe w hw⟩
  · have hs : sorted.Sorted (fun a b => b.2 ≤ a.2) :=
      List.sorted_insertionSort _ scored
    have hst : (sorted.take topK).Sorted (fun a b => b.2 ≤ a.2) :=
      List.Pairwise.sublist (List.take_sublist _ _) hs
    rw [List.Sorted, List.pairwise_map]
    exact hst
  · rw [List.length_take]
    exact min_le_left _ _
  · intro p hp
    have hp1 : p ∈ sorted := (List.take_sublist _ _).subset hp
    have hp2 : p ∈ scored := by
      rw [hsorted] at hp1
      exact (List.mem_insertionSort _).mp hp1
    exact hmem_scored p hp2
  · intro hlen c hc hcond
    have hlen2 : sorted.length < topK := by
      rw [List.length_take] at hlen
      rcases Nat.lt_or_ge sorted.length topK with h | h
      · exact h
      · rw [min_eq_left h] at hlen
        exact absurd hlen (lt_irrefl _)
  -- with no truncation the take is the whole sorted list
    have htake : sorted.take topK = sorted :=
      List.take_of_length_le (le_of_lt hlen2)
    have hin : (c, hybridScore qe query c) ∈ scored := by
      rw [hscored]
      apply List.mem_filterMap.mpr
      refine ⟨c, hc, ?_⟩
      show (if minScore ≤ hybridScore qe query c
        then some (c, hybridScore qe query c) else none) = some (c, hybridScore qe query c)
      rw [if_pos hcond]
    have hin2 : (c, hybridScore qe query c) ∈ sorted := by
      rw [hsorted]
      exact (List.mem_insertionSort _).mpr hin
    rw [htake]
    exact List.mem_map_of_mem (fun p => p.1) hin2

lemma bm25Term_foo : bm25Term "foo" (lowerStr "foo") = 1/2 := by
  have hs : substrOf "foo".data (lowerStr "foo").data = true := by decide
  have hc : countOcc "foo".data (lowerStr "foo").data = 1 := by decide
  unfold bm25Term
  rw [if_pos hs, hc]
  norm_num

lemma bm25Score_foo : bm25Score "foo" "foo" = 1/2 := by
  have hterms : (pySplitWs (lowerStr "foo")).dedup = ["foo"] := by decide
  unfold bm25Score
  rw [hterms]
  simp [bm25Term_foo]

lemma hybridScore_demoChunkZero : hybridScore [1] "foo" demoChunkZero = 0.15 := by
  simp only [hybridScore, demoChunkZero]
  rw [cosineSimilarity_zero_norm [1] [0] (by norm_num), bm25Score_foo]
  rw [min_eq_left (by norm_num : (1:ℝ)/2 ≤ 1)]
  norm_num

/-- C4 counterexample: a candidate whose stored embedding has zero norm is
*not* skipped by `SearchEngine.search` — `cosine_similarity` returns 0 for
it, and with a matching query token its fused score
`0.7 * 0 + 0.3 * (1/2) = 0.15` passes the threshold 0.1, so the zero-norm
candidate is returned, contradicting the claim that such candidates are
skipped. -/
theorem C4_zero_norm_not_skipped :
    (searchEngineSearch (some [1]) "foo" [demoChunkZero] 5 (1/10)).map
      (fun p => p.1.id) = ["c1"] := by
  rw [searchEngineSearch_eq [1] "foo" [demoChunkZero] 5 (1/10) (by simp)]
  rw [List.filterMap_cons, List.filterMap_nil]
  rw [if_pos (by rw [hybridScore_demoChunkZero]; norm_num :
    (1:ℝ)/10 ≤ hybridScore [1] "foo" demoChunkZero)]
  simp [List.insertionSort, List.orderedInsert, demoChunkZero]

/-- Witness for C4 at a concrete query, embedding and chunk table. -/
theorem C4_search_contract_witness :
    (searchEngineSearch (some [1]) "foo" [demoChunkZero] 5 (1/10)).length ≤ 5 ∧
    ((searchEngineSearch (some [1]) "foo" [demoChunkZero] 5 (1/10)).map
      (fun p => p.2)).Sorted (· ≥ ·) := by
  have h := C4_search_contract [1] "foo" [demoChunkZero] 5 (1/10) (by simp)
  exact ⟨h.2.1, h.1⟩

end Weaver

